import Mathlib

/-!
# Verification of the CareGraph frontend simulation views

A shallow embedding of the cost-aggregation, plan-comparison and graph-display
logic of the CareGraph repository (`frontend/src/components/CostSummary.jsx`,
`Dashboard.jsx`, `CareGraph.jsx`, `ComparePlans.jsx`, `App.jsx`), together with
models of the backend Financial Calculator and Plan Comparator contracts that
are specified but whose Python sources are not part of this tree.

JavaScript numbers are modelled as rationals (`ℚ`), JS objects as structures,
JS `Set`s as `Finset String`.  All definitions are executable.
-/

namespace CareGraph

/-- A pathway node as produced by the backend and consumed by the frontend
(`graph.nodes[i]` in the JSX components): id, display label, node type
(`current` / `future` / `high_cost` / `intervention`), onset year,
probability, annual cost, out-of-pocket estimate, LLM-generated flag. -/
structure PNode where
  id : String
  label : String
  node_type : String
  year : ℚ
  probability : ℚ
  annual_cost : ℚ
  oop_estimate : ℚ
  is_llm_generated : Bool
deriving DecidableEq, Repr

/-- A pathway edge (`graph.edges[i]`): source id, target id, edge type, label,
probability. -/
structure PEdge where
  source : String
  target : String
  edge_type : String
  label : String
  probability : ℚ
deriving DecidableEq, Repr

/-- The graph payload the frontend receives:
`{nodes, edges, total_5yr_cost, total_5yr_oop}`. -/
structure Graph where
  nodes : List PNode
  edges : List PEdge
  total_5yr_cost : ℚ
  total_5yr_oop : ℚ
deriving DecidableEq, Repr

/-! ## CostSummary.jsx : computePathwayCost -/

/-- `nodeMap[n.id] = n` built by iterating `graph.nodes`; a later node with the
same id overwrites an earlier one, so lookup returns the last match. -/
def nodeMapLookup (nodes : List PNode) (id : String) : Option PNode :=
  nodes.foldl (fun acc n => if n.id = id then some n else acc) none

/-- The reverse edge map `parentOf` of `computePathwayCost`: for each edge,
`parentOf[e.target]` collects `e.source` (in edge-list order). -/
def parentOf (edges : List PEdge) (id : String) : List String :=
  (edges.filter (fun e => e.target = id)).map (fun e => e.source)

/-- The finite universe of ids the backward walk can ever enqueue: the selected
id plus every edge source.  Used only as a termination bound for
`collectPath`; it plays no role in the computed set (see
`mem_collectPath_iff`). -/
def pathUniverse (edges : List PEdge) (sel : String) : Finset String :=
  insert sel (edges.map (fun e => e.source)).toFinset

/-- The backward worklist walk of `computePathwayCost` (JS: a stack via
`queue.pop()` / `queue.push`): pop an id, skip it if already visited,
otherwise mark it visited and push its parents.  The `id ∈ U` test is purely
a termination bound: every id ever enqueued (the selected id and edge
sources) lies in `U`, so on the actual calls that branch never skips
anything (lemma `collectPath_spec` below characterises the result). -/
def collectPath (p : String → List String) (U : Finset String)
    (visited : Finset String) (queue : List String) : Finset String :=
  match queue with
  | [] => visited
  | id :: rest =>
    if id ∈ visited then collectPath p U visited rest
    else if id ∈ U then collectPath p U (insert id visited) (p id ++ rest)
    else collectPath p U visited rest
termination_by ((U \ visited).card, queue.length)
decreasing_by
  · apply Prod.Lex.right
    simp
  · apply Prod.Lex.left
    have h1 : U \ insert id visited = (U \ visited).erase id :=
      Finset.sdiff_insert U visited id
    rw [h1]
    exact Finset.card_erase_lt_of_mem (Finset.mem_sdiff.mpr ⟨by assumption, by assumption⟩)
  · apply Prod.Lex.right
    simp

/-- `pathNodeIds` of `computePathwayCost`: all ids reachable backwards from the
selected node through the reverse edge map. -/
def pathNodeIds (g : Graph) (sel : String) : Finset String :=
  collectPath (parentOf g.edges) (pathUniverse g.edges sel) ∅ [sel]

/-- Result record of `computePathwayCost`:
`{ totalCost, totalOop, nodeCount }`. -/
structure PathwayCost where
  totalCost : ℚ
  totalOop : ℚ
  nodeCount : ℕ
deriving DecidableEq, Repr

/-- The per-node contribution pair of the summation loop of
`computePathwayCost`: a missing node contributes nothing (`continue`);
otherwise `yearsActive = max(1, timeHorizon - node.year + 1)` scales both the
annual cost and the OOP estimate. -/
def nodeContribution (nodes : List PNode) (timeHorizon : ℚ) (id : String) : ℚ × ℚ :=
  match nodeMapLookup nodes id with
  | none => (0, 0)
  | some n =>
    let yearsActive := max 1 (timeHorizon - n.year + 1)
    (n.annual_cost * yearsActive, n.oop_estimate * yearsActive)

/-- `computePathwayCost(graph, selectedNodeId, timeHorizon)` from
`CostSummary.jsx`: `null` when no node is selected, otherwise the total cost,
total OOP and node count of the set of ancestors of the selected node. -/
def computePathwayCost (g : Graph) (selectedNodeId : Option String)
    (timeHorizon : ℚ) : Option PathwayCost :=
  match selectedNodeId with
  | none => none
  | some sel =>
    let ids := pathNodeIds g sel
    let t := ∑ id ∈ ids, nodeContribution g.nodes timeHorizon id
    some { totalCost := t.1, totalOop := t.2, nodeCount := ids.card }

/-- The call site in `CostSummary` leaves `timeHorizon` at its default of 5. -/
def computePathwayCostDefault (g : Graph) (selectedNodeId : Option String) :
    Option PathwayCost :=
  computePathwayCost g selectedNodeId 5

/-! ### Correctness of the backward walk -/

/-- One backward step: `b` is a parent of `a`. -/
def parentStep (p : String → List String) (a b : String) : Prop :=
  b ∈ p a

/-- Backward reachability: `a` can reach `b` by repeatedly moving to a
parent. -/
def reaches (p : String → List String) (a b : String) : Prop :=
  Relation.ReflTransGen (parentStep p) a b

theorem collectPath_subset (p : String → List String) (U : Finset String)
    (visited : Finset String) (queue : List String) :
    visited ⊆ collectPath p U visited queue := by
  induction visited, queue using collectPath.induct p U with
  | case1 visited =>
    rw [collectPath]
  | case2 visited id rest hmem ih =>
    rw [collectPath]
    simp only [hmem, if_true]
    exact ih
  | case3 visited id rest hmem hU ih =>
    rw [collectPath]
    simp only [hmem, if_false, hU, if_true]
    exact fun x hx => ih (Finset.mem_insert_of_mem hx)
  | case4 visited id rest hmem hU ih =>
    rw [collectPath]
    simp only [hmem, if_false, hU]
    exact ih

theorem mem_collectPath_of_mem_queue (p : String → List String)
    (U : Finset String) (visited : Finset String) (queue : List String)
    {x : String} (hx : x ∈ queue) (hxU : x ∈ U) :
    x ∈ collectPath p U visited queue := by
  induction visited, queue using collectPath.induct p U with
  | case1 visited => cases hx
  | case2 visited id rest hmem ih =>
    rw [collectPath]
    simp only [hmem, if_true]
    rcases List.mem_cons.mp hx with h | h
    · exact collectPath_subset p U visited rest (h ▸ hmem)
    · exact ih h
  | case3 visited id rest hmem hU ih =>
    rw [collectPath]
    simp only [hmem, if_false, hU, if_true]
    rcases List.mem_cons.mp hx with h | h
    · exact collectPath_subset p U _ _ (h ▸ Finset.mem_insert_self id visited)
    · exact ih (List.mem_append_right _ h)
  | case4 visited id rest hmem hU ih =>
    rw [collectPath]
    simp only [hmem, if_false, hU, if_false]
    rcases List.mem_cons.mp hx with h | h
    · exact absurd (h ▸ hxU) hU
    · exact ih h

/-- Closure: if every parent of a visited node is visited or queued, then the
final set is closed under taking parents. -/
theorem collectPath_closed (p : String → List String) (U : Finset String)
    (hU : ∀ a, ∀ b ∈ p a, b ∈ U)
    (visited : Finset String) (queue : List String)
    (hinv : ∀ v ∈ visited, ∀ q ∈ p v, q ∈ visited ∨ q ∈ queue) :
    ∀ v ∈ collectPath p U visited queue, ∀ q ∈ p v,
      q ∈ collectPath p U visited queue := by
  induction visited, queue using collectPath.induct p U with
  | case1 visited =>
    rw [collectPath]
    intro v hv q hq
    rcases hinv v hv q hq with h | h
    · exact h
    · cases h
  | case2 visited id rest hmem ih =>
    rw [collectPath]
    simp only [hmem, if_true]
    refine ih ?_
    intro v hv q hq
    rcases hinv v hv q hq with h | h
    · exact Or.inl h
    · rcases List.mem_cons.mp h with h' | h'
      · exact Or.inl (h' ▸ hmem)
      · exact Or.inr h'
  | case3 visited id rest hmem hUid ih =>
    rw [collectPath]
    simp only [hmem, if_false, hUid, if_true]
    refine ih ?_
    intro v hv q hq
    rcases Finset.mem_insert.mp hv with h | h
    · exact Or.inr (List.mem_append_left _ (h ▸ hq))
    · rcases hinv v h q hq with h' | h'
      · exact Or.inl (Finset.mem_insert_of_mem h')
      · rcases List.mem_cons.mp h' with h'' | h''
        · exact Or.inl (h'' ▸ Finset.mem_insert_self id visited)
        · exact Or.inr (List.mem_append_right _ h'')
  | case4 visited id rest hmem hUid ih =>
    rw [collectPath]
    simp only [hmem, if_false, hUid, if_false]
    refine ih ?_
    intro v hv q hq
    rcases hinv v hv q hq with h | h
    · exact Or.inl h
    · rcases List.mem_cons.mp h with h' | h'
      · exact absurd (h' ▸ hU v q hq) hUid
      · exact Or.inr h'

/-- Soundness: everything collected was visited already or is backward
reachable from some queued id. -/
theorem collectPath_sound (p : String → List String) (U : Finset String)
    (visited : Finset String) (queue : List String) :
    ∀ x ∈ collectPath p U visited queue,
      x ∈ visited ∨ ∃ q ∈ queue, reaches p q x := by
  induction visited, queue using collectPath.induct p U with
  | case1 visited =>
    rw [collectPath]
    exact fun x hx => Or.inl hx
  | case2 visited id rest hmem ih =>
    rw [collectPath]
    simp only [hmem, if_true]
    intro x hx
    rcases ih x hx with h | ⟨q, hq, hr⟩
    · exact Or.inl h
    · exact Or.inr ⟨q, List.mem_cons_of_mem _ hq, hr⟩
  | case3 visited id rest hmem hUid ih =>
    rw [collectPath]
    simp only [hmem, if_false, hUid, if_true]
    intro x hx
    rcases ih x hx with h | ⟨q, hq, hr⟩
    · rcases Finset.mem_insert.mp h with h' | h'
      · exact Or.inr ⟨id, List.mem_cons_self id rest, h' ▸ Relation.ReflTransGen.refl⟩
      · exact Or.inl h'
    · rcases List.mem_append.mp hq with h' | h'
      · exact Or.inr ⟨id, List.mem_cons_self id rest, Relation.ReflTransGen.head h' hr⟩
      · exact Or.inr ⟨q, List.mem_cons_of_mem _ h', hr⟩
  | case4 visited id rest hmem hUid ih =>
    rw [collectPath]
    simp only [hmem, if_false, hUid, if_false]
    intro x hx
    rcases ih x hx with h | ⟨q, hq, hr⟩
    · exact Or.inl h
    · exact Or.inr ⟨q, List.mem_cons_of_mem _ hq, hr⟩

/-- Characterisation of the walk started from a single selected id: it
computes exactly the set of ids backward reachable from the selected id. -/
theorem collectPath_spec (p : String → List String) (U : Finset String)
    (hU : ∀ a, ∀ b ∈ p a, b ∈ U) (sel : String) (hsel : sel ∈ U) (x : String) :
    x ∈ collectPath p U ∅ [sel] ↔ reaches p sel x := by
  constructor
  · intro hx
    rcases collectPath_sound p U ∅ [sel] x hx with h | ⟨q, hq, hr⟩
    · cases h
    · rcases List.mem_singleton.mp hq with rfl
      exact hr
  · intro hr
    have hclosed := collectPath_closed p U hU ∅ [sel]
      (fun v hv => absurd hv (Finset.not_mem_empty v))
    have hstart : sel ∈ collectPath p U ∅ [sel] :=
      mem_collectPath_of_mem_queue p U ∅ [sel] (List.mem_singleton.mpr rfl) hsel
    induction hr with
    | refl => exact hstart
    | tail hab hbc ih => exact hclosed _ ih _ hbc

/-- `pathNodeIds` is exactly backward reachability through the graph's reverse
edge map. -/
theorem mem_pathNodeIds_iff (g : Graph) (sel x : String) :
    x ∈ pathNodeIds g sel ↔ reaches (parentOf g.edges) sel x := by
  refine collectPath_spec _ _ ?_ sel (Finset.mem_insert_self _ _) x
  intro a b hb
  unfold parentOf at hb
  rcases List.mem_map.mp hb with ⟨e, he, rfl⟩
  exact Finset.mem_insert_of_mem
    (List.mem_toFinset.mpr (List.mem_map.mpr ⟨e, (List.mem_filter.mp he).1, rfl⟩))

/-! ## Dashboard.jsx : cost breakdown -/

/-- `graph.nodes.filter(n => n.node_type === "current")`. -/
def currentNodes (g : Graph) : List PNode :=
  g.nodes.filter (fun n => n.node_type = "current")

/-- `graph.nodes.filter(n => n.node_type === "future")`. -/
def futureNodes (g : Graph) : List PNode :=
  g.nodes.filter (fun n => n.node_type = "future")

/-- `graph.nodes.filter(n => n.node_type === "high_cost")`. -/
def highCostNodes (g : Graph) : List PNode :=
  g.nodes.filter (fun n => n.node_type = "high_cost")

/-- `[...future, ...highCost].sort((a, b) => (b.probability||0) - (a.probability||0))`:
the risk nodes ordered by descending probability (a stable sort, as JS
`Array.prototype.sort` is). -/
def riskNodes (g : Graph) : List PNode :=
  (futureNodes g ++ highCostNodes g).mergeSort
    (fun a b => decide (b.probability ≤ a.probability))

/-- `costBreakdown.current`:
`current.reduce((s, n) => s + (n.annual_cost || 0), 0) * 5`. -/
def costBreakdownCurrent (g : Graph) : ℚ :=
  ((currentNodes g).foldl (fun s n => s + n.annual_cost) 0) * 5

/-- `costBreakdown.future`:
`risks.reduce((s, n) => s + (n.annual_cost || 0) * (n.probability || 0), 0) * 5`. -/
def costBreakdownFuture (g : Graph) : ℚ :=
  ((riskNodes g).foldl (fun s n => s + n.annual_cost * n.probability) 0) * 5

/-- Modelled from the spec: the aggregation formula
`Σ(current nodes: annual_cost × years_active)` with
`years_active = max(1, horizon − onset_year + 1)` at the fixed 5-year
horizon, as the claim asserts the Dashboard's `current` segment computes.
Stated from the spec's words, to be compared with `costBreakdownCurrent`. -/
def specCurrentSegment (g : Graph) : ℚ :=
  ((currentNodes g).map (fun n => n.annual_cost * max 1 (5 - n.year + 1))).sum

/-- Modelled from the spec: the aggregation formula
`Σ(future/high_cost nodes: annual_cost × probability × years_active)` with
`years_active = max(1, horizon − onset_year + 1)` at the fixed 5-year
horizon, as the claim asserts the Dashboard's `future` segment computes. -/
def specFutureSegment (g : Graph) : ℚ :=
  ((futureNodes g ++ highCostNodes g).map
    (fun n => n.annual_cost * n.probability * max 1 (5 - n.year + 1))).sum

/-! ## ComparePlans.jsx -/

/-- A marketplace plan as listed by the plan search
(`plans[i]` in `ComparePlans.jsx`). -/
structure Plan where
  plan_id : String
  plan_name : String
  issuer : String
  metal_level : String
  deductible : ℚ
  coinsurance : ℚ
  oop_max : ℚ
  monthly_premium : ℚ
deriving DecidableEq, Repr

/-- One entry of `data.plan_comparisons`: the plan, its re-evaluated graph and
its `total_with_premium`. -/
structure PlanComparison where
  plan : Plan
  graph : Graph
  total_with_premium : ℚ
deriving DecidableEq, Repr

/-- `togglePlan(planId)` applied to the previous selection `prev`:
deselect if present, ignore if already 3 selected, otherwise append. -/
def togglePlan (planId : String) (prev : List String) : List String :=
  if planId ∈ prev then prev.filter (fun id => id ≠ planId)
  else if 3 ≤ prev.length then prev
  else prev ++ [planId]

/-- A sequence of `togglePlan` clicks starting from the initial empty
selection `useState([])`. -/
def applyToggles (clicks : List String) : List String :=
  clicks.foldl (fun sel planId => togglePlan planId sel) []

/-- The body of the request `handleCompare` posts to
`/plans/marketplace-compare`. -/
structure MarketplaceCompareRequest where
  age : ℚ
  sex : String
  conditions : List String
  interventions : List String
  state : String
  plan_ids : List String
  time_horizon_years : ℚ
deriving DecidableEq, Repr

/-- Profile state as held by the frontend (`App.jsx` `newProfile`). -/
structure Profile where
  age : ℚ
  sex : String
  conditions : List String
  insurance_type : String
  deductible : ℚ
  coinsurance : ℚ
  oop_max : ℚ
deriving DecidableEq, Repr

/-- `handleCompare`: returns without posting when fewer than two plans are
selected; otherwise posts the comparison request (profile demographics with
fall-backs, the selected plan ids, and a fixed `time_horizon_years: 5`). -/
def handleCompareRequest (profile : Option Profile) (searchAge : ℚ)
    (selectedState : String) (selectedPlanIds : List String) :
    Option MarketplaceCompareRequest :=
  if selectedPlanIds.length < 2 then none
  else some
    { age := match profile with
        | some p => p.age
        | none => searchAge
      sex := match profile with
        | some p => p.sex
        | none => "M"
      conditions := match profile with
        | some p => p.conditions
        | none => []
      interventions := []
      state := selectedState
      plan_ids := selectedPlanIds
      time_horizon_years := 5 }

/-- `total_with_premium` of the result at position `i`, with 0 out of range
(in the source `results[best]` is always in range). -/
def twpAt (results : List PlanComparison) (i : ℕ) : ℚ :=
  match results.get? i with
  | some r => r.total_with_premium
  | none => 0

/-- One step of the `cheapestIdx` reduction: take the new index when its
result is strictly cheaper than the current best. -/
def cheapestStep (results : List PlanComparison) (best : ℕ)
    (ir : ℕ × PlanComparison) : ℕ :=
  if ir.2.total_with_premium < twpAt results best then ir.1 else best

/-- `cheapestIdx`:
`results.reduce((best, r, i) => (r.total_with_premium < results[best].total_with_premium ? i : best), 0)`. -/
def cheapestIdx (results : List PlanComparison) : ℕ :=
  results.enum.foldl (cheapestStep results) 0

/-- The quantity the `Premiums (5yr)` row renders (before display rounding):
`r.plan.monthly_premium * 60`. -/
def premiumsShown (r : PlanComparison) : ℚ :=
  r.plan.monthly_premium * 60

/-- The quantity the `Total Cost` row renders (before display rounding):
`r.total_with_premium`. -/
def totalShown (r : PlanComparison) : ℚ :=
  r.total_with_premium

/-! ## Spec-modelled backend components

The Python simulation backend (Financial Calculator and Plan Comparator) is
not part of this tree; the definitions below are modelled from the spec. -/

/-- Modelled from the spec (the backend Financial Calculator is missing from
this tree): `outOfPocket(annualCost, plan)` — the patient pays 100% of cost
up to the plan's deductible; above the deductible the coinsurance rate
applies to the remainder; the cumulative result is capped at the plan's
`oop_max`. -/
def outOfPocket (annualCost : ℚ) (plan : Plan) : ℚ :=
  min plan.oop_max
    (if annualCost ≤ plan.deductible then annualCost
     else plan.deductible + plan.coinsurance * (annualCost - plan.deductible))

/-- Modelled from the spec (the backend Plan Comparator is missing from this
tree): one comparison entry with
`total_with_premium = total_5yr_oop + monthly_premium × 12 × horizon_years`. -/
def mkPlanComparison (plan : Plan) (graph : Graph) (horizonYears : ℚ) :
    PlanComparison :=
  { plan := plan
    graph := graph
    total_with_premium :=
      graph.total_5yr_oop + plan.monthly_premium * 12 * horizonYears }

/-- The sort key of the Plan Comparator's output ordering: ascending
`total_with_premium`, ties broken by plan id. -/
def planKeyLE (a b : PlanComparison) : Bool :=
  decide (a.total_with_premium < b.total_with_premium) ||
    (decide (a.total_with_premium = b.total_with_premium) &&
      decide (a.plan.plan_id ≤ b.plan.plan_id))

/-- Modelled from the spec (the backend Plan Comparator is missing from this
tree): results are sorted ascending by `total_with_premium`, ties broken by
plan id for determinism. -/
def sortResults (results : List PlanComparison) : List PlanComparison :=
  results.mergeSort planKeyLE

/-! ## App.jsx : startNewProfile -/

/-- The structured profile delivered by the out-of-scope parser
(`parsed` in `startNewProfile`); absent fields are `none`. -/
structure ParsedProfile where
  age : Option ℚ
  sex : Option String
  conditions : Option (List String)
  insurance_type : Option String
  symptom_conditions : Option (List String)
  unmapped_conditions : Option (List String)
deriving DecidableEq, Repr

/-- JS `x || d` for an optional number: `none` (and the falsy `0`) fall back
to the default. -/
def orNum (x : Option ℚ) (d : ℚ) : ℚ :=
  match x with
  | none => d
  | some v => if v = 0 then d else v

/-- JS `x || d` for an optional string: `none` (and the falsy `""`) fall back
to the default. -/
def orStr (x : Option String) (d : String) : String :=
  match x with
  | none => d
  | some v => if v = "" then d else v

/-- JS `x || d` for an optional list (a missing array field). -/
def orList (x : Option (List String)) (d : List String) : List String :=
  match x with
  | none => d
  | some v => v

/-- `newProfile` as built by `startNewProfile`: parsed demographics with
defaults `age 45`, `sex "M"`, `insurance_type "PPO"`, and the fixed plan
terms `deductible: 2000, coinsurance: 0.2, oop_max: 8000`. -/
def mkNewProfile (parsed : ParsedProfile) : Profile :=
  { age := orNum parsed.age 45
    sex := orStr parsed.sex "M"
    conditions := orList parsed.conditions []
    insurance_type := orStr parsed.insurance_type "PPO"
    deductible := 2000
    coinsurance := 0.2
    oop_max := 8000 }

/-- The body of the request `generatePathway` posts to `/simulation/pathway`. -/
structure PathwayRequest where
  profile : Profile
  interventions : List String
  time_horizon_years : ℚ
  symptom_conditions : List String
  unmapped_conditions : List String
deriving DecidableEq, Repr

/-- The pathway request issued by `startNewProfile`:
`generatePathway(newProfile, [], 5, symptom, unmapped, scores)`. -/
def startNewProfileRequest (parsed : ParsedProfile) : PathwayRequest :=
  { profile := mkNewProfile parsed
    interventions := []
    time_horizon_years := 5
    symptom_conditions := orList parsed.symptom_conditions []
    unmapped_conditions := orList parsed.unmapped_conditions [] }

/-- The pathway request issued on an `add_intervention` scenario:
`generatePathway(profile, newInterventions, 5)` (the remaining arguments
take their defaults). -/
def interventionPathwayRequest (profile : Profile)
    (newInterventions : List String) : PathwayRequest :=
  { profile := profile
    interventions := newInterventions
    time_horizon_years := 5
    symptom_conditions := []
    unmapped_conditions := [] }

/-! ## CareGraph.jsx : toElements

The Cytoscape element data emitted by `toElements`.  The trigonometric layout
(`positions`) and the derived presentation attributes `depth` and the
stylesheet are display-only and are not modelled; the node and edge data
below follow the element-building loop at the end of `toElements`. -/

/-- Data of one Cytoscape node element. -/
structure CyNodeData where
  id : String
  label : String
  nodeType : String
  probability : ℚ
  annualCost : ℚ
  oopEstimate : ℚ
  year : ℚ
  isLlmGenerated : Bool
deriving DecidableEq, Repr

/-- Data of one Cytoscape edge element. -/
structure CyEdgeData where
  id : String
  source : String
  target : String
  label : String
  edgeType : String
  probability : ℚ
deriving DecidableEq, Repr

/-- The synthetic root element pushed first:
`{ id: "root", label: "Your Health", nodeType: "root", probability: 1, ... }`. -/
def rootNodeData : CyNodeData :=
  { id := "root", label := "Your Health", nodeType := "root"
    probability := 1, annualCost := 0, oopEstimate := 0, year := 0
    isLlmGenerated := false }

/-- The element data for one graph node (the `(AI estimate)` suffix is added
to LLM-generated labels). -/
def cyNodeData (n : PNode) : CyNodeData :=
  { id := n.id
    label := if n.is_llm_generated then n.label ++ "\n(AI estimate)" else n.label
    nodeType := n.node_type
    probability := n.probability
    annualCost := n.annual_cost
    oopEstimate := n.oop_estimate
    year := n.year
    isLlmGenerated := n.is_llm_generated }

/-- `toElements` pushes a root edge for a node exactly when
`n.node_type === "current" || n.id.startsWith("suspected_")`. -/
def rootEdgeFor (n : PNode) : Option CyEdgeData :=
  if n.node_type = "current" ∨ n.id.startsWith "suspected_" then
    some { id := "root-to-" ++ n.id, source := "root", target := n.id
           label := "", edgeType := "root", probability := n.probability }
  else none

/-- The element lists built by `toElements` (nodes, then edges): the synthetic
root followed by one node element per graph node; the root edges emitted
during the same loop, followed by the indexed graph edges. -/
def toElements (g : Graph) : List CyNodeData × List CyEdgeData :=
  (rootNodeData :: g.nodes.map cyNodeData,
    g.nodes.filterMap rootEdgeFor ++
      g.edges.enum.map (fun ie =>
        { id := "edge-" ++ toString ie.1, source := ie.2.source
          target := ie.2.target, label := ie.2.label
          edgeType := ie.2.edge_type, probability := ie.2.probability }))

/-! ## Helper lemmas -/

theorem foldl_lookup_aux (id : String) (nodes : List PNode) (acc : Option PNode)
    (n : PNode)
    (h : nodes.foldl (fun acc m => if m.id = id then some m else acc) acc = some n) :
    acc = some n ∨ (n ∈ nodes ∧ n.id = id) := by
  induction nodes generalizing acc with
  | nil => exact Or.inl h
  | cons m l ih =>
    rw [List.foldl_cons] at h
    rcases ih _ h with h' | h'
    · by_cases hm : m.id = id
      · simp only [hm, if_true, Option.some.injEq] at h'
        exact Or.inr ⟨h' ▸ List.mem_cons_self m l, h' ▸ hm⟩
      · simp only [hm, if_false] at h'
        exact Or.inl h'
    · exact Or.inr ⟨List.mem_cons_of_mem m h'.1, h'.2⟩

theorem nodeMapLookup_mem {nodes : List PNode} {id : String} {n : PNode}
    (h : nodeMapLookup nodes id = some n) : n ∈ nodes ∧ n.id = id := by
  rcases foldl_lookup_aux id nodes none n h with h' | h'
  · cases h'
  · exact h'

theorem foldl_add_eq_sum (l : List PNode) (f : PNode → ℚ) (a : ℚ) :
    l.foldl (fun s n => s + f n) a = a + (l.map f).sum := by
  induction l generalizing a with
  | nil => simp
  | cons m l ih =>
    rw [List.foldl_cons, ih]
    simp [add_assoc]

/-! ## Claim theorems -/

/-- **C1.** Out-of-pocket aggregates never exceed gross-cost aggregates: for
every graph in which every node satisfies
`0 ≤ oop_estimate ≤ annual_cost`, and for every selected node id and
horizon, `computePathwayCost` returns `totalOop ≤ totalCost`. -/
theorem computePathwayCost_oop_le_cost (g : Graph)
    (hb : ∀ n ∈ g.nodes, 0 ≤ n.oop_estimate ∧ n.oop_estimate ≤ n.annual_cost)
    (sel : String) (timeHorizon : ℚ) (r : PathwayCost)
    (hr : computePathwayCost g (some sel) timeHorizon = some r) :
    r.totalOop ≤ r.totalCost := by
  rw [computePathwayCost] at hr
  injection hr with hr
  subst hr
  show (∑ id ∈ pathNodeIds g sel, nodeContribution g.nodes timeHorizon id).2 ≤
    (∑ id ∈ pathNodeIds g sel, nodeContribution g.nodes timeHorizon id).1
  rw [Prod.fst_sum, Prod.snd_sum]
  refine Finset.sum_le_sum fun id _ => ?_
  unfold nodeContribution
  cases hn : nodeMapLookup g.nodes id with
  | none => simp
  | some n =>
    have hmem := nodeMapLookup_mem hn
    have hya : (0 : ℚ) ≤ max 1 (timeHorizon - n.year + 1) :=
      le_trans zero_le_one (le_max_left 1 _)
    exact mul_le_mul_of_nonneg_right (hb n hmem.1).2 hya

def c1Graph : Graph :=
  { nodes := [{ id := "a", label := "A", node_type := "current", year := 0,
                probability := 1, annual_cost := 2, oop_estimate := 1,
                is_llm_generated := false }]
    edges := []
    total_5yr_cost := 10, total_5yr_oop := 5 }

def c1Result : PathwayCost :=
  { totalCost := 12, totalOop := 6, nodeCount := 1 }

theorem c1Graph_eval : computePathwayCost c1Graph (some "a") 5 = some c1Result := by
  have h1 : pathNodeIds c1Graph "a" = {"a"} := by
    rw [pathNodeIds, collectPath]
    norm_num
    rw [collectPath]
    norm_num [parentOf, pathUniverse, c1Graph, collectPath]
  rw [computePathwayCost]
  simp only [h1]
  norm_num [nodeContribution, nodeMapLookup, c1Graph, c1Result]

theorem computePathwayCost_oop_le_cost_witness :
    computePathwayCost c1Graph (some "a") 5 = some c1Result ∧
    c1Result.totalOop ≤ c1Result.totalCost :=
  ⟨c1Graph_eval,
    computePathwayCost_oop_le_cost c1Graph (by decide) "a" 5 c1Result c1Graph_eval⟩

/-- **C3.** `computePathwayCost` scales each counted node's `annual_cost` and
`oop_estimate` by `years_active = max(1, horizon − onset year + 1)`, and the
call-site default for the horizon is 5 years. -/
theorem computePathwayCost_yearsActive (g : Graph) (sel : String)
    (timeHorizon : ℚ) :
    computePathwayCost g (some sel) timeHorizon = some
      { totalCost := ∑ id ∈ pathNodeIds g sel,
          (match nodeMapLookup g.nodes id with
           | some n => n.annual_cost * max 1 (timeHorizon - n.year + 1)
           | none => 0)
        totalOop := ∑ id ∈ pathNodeIds g sel,
          (match nodeMapLookup g.nodes id with
           | some n => n.oop_estimate * max 1 (timeHorizon - n.year + 1)
           | none => 0)
        nodeCount := (pathNodeIds g sel).card } ∧
    computePathwayCostDefault g (some sel) = computePathwayCost g (some sel) 5 := by
  refine ⟨?_, rfl⟩
  rw [computePathwayCost]
  refine congrArg some ?_
  have hfst : (∑ id ∈ pathNodeIds g sel, nodeContribution g.nodes timeHorizon id).1 =
      ∑ id ∈ pathNodeIds g sel,
        (match nodeMapLookup g.nodes id with
         | some n => n.annual_cost * max 1 (timeHorizon - n.year + 1)
         | none => 0) := by
    rw [Prod.fst_sum]
    refine Finset.sum_congr rfl fun id _ => ?_
    unfold nodeContribution
    cases nodeMapLookup g.nodes id <;> rfl
  have hsnd : (∑ id ∈ pathNodeIds g sel, nodeContribution g.nodes timeHorizon id).2 =
      ∑ id ∈ pathNodeIds g sel,
        (match nodeMapLookup g.nodes id with
         | some n => n.oop_estimate * max 1 (timeHorizon - n.year + 1)
         | none => 0) := by
    rw [Prod.snd_sum]
    refine Finset.sum_congr rfl fun id _ => ?_
    unfold nodeContribution
    cases nodeMapLookup g.nodes id <;> rfl
  rw [PathwayCost.mk.injEq]
  exact ⟨hfst, hsnd, rfl⟩

/-! ### C4 : invariance of the ancestor walk under redundant edges -/

theorem mem_parentOf_iff (edges : List PEdge) (a b : String) :
    b ∈ parentOf edges a ↔ ∃ e ∈ edges, e.target = a ∧ e.source = b := by
  unfold parentOf
  constructor
  · intro hb
    rcases List.mem_map.mp hb with ⟨e, he, rfl⟩
    exact ⟨e, (List.mem_filter.mp he).1, by simpa using (List.mem_filter.mp he).2, rfl⟩
  · rintro ⟨e, he, ht, rfl⟩
    exact List.mem_map.mpr ⟨e, List.mem_filter.mpr ⟨he, by simpa using ht⟩, rfl⟩

theorem reaches_mono {p q : String → List String}
    (h : ∀ a b, b ∈ p a → b ∈ q a) {x y : String} (hr : reaches p x y) :
    reaches q x y :=
  Relation.ReflTransGen.mono (fun a b hab => h a b hab) hr

/-- Adding an edge whose source is already backward reachable from the
selected id (in particular a duplicate of an existing edge) does not change
backward reachability. -/
theorem reaches_cons_iff (g : Graph) (e : PEdge) (sel : String)
    (h : e ∈ g.edges ∨ reaches (parentOf g.edges) sel e.source) (x : String) :
    reaches (parentOf (e :: g.edges)) sel x ↔ reaches (parentOf g.edges) sel x := by
  have hsub : ∀ a b, b ∈ parentOf g.edges a → b ∈ parentOf (e :: g.edges) a := by
    intro a b hb
    rcases (mem_parentOf_iff g.edges a b).mp hb with ⟨e', he', ht, hs⟩
    exact (mem_parentOf_iff _ a b).mpr ⟨e', List.mem_cons_of_mem e he', ht, hs⟩
  constructor
  · intro hr
    induction hr with
    | refl => exact Relation.ReflTransGen.refl
    | tail hab hbc ih =>
      rename_i b c
      rcases (mem_parentOf_iff (e :: g.edges) b c).mp hbc with ⟨e', he', ht, hs⟩
      rcases List.mem_cons.mp he' with h' | h'
      · subst h'
        rcases h with hdup | hreach
        · exact Relation.ReflTransGen.tail ih
            ((mem_parentOf_iff g.edges b c).mpr ⟨e', hdup, ht, hs⟩)
        · exact hs ▸ hreach
      · exact Relation.ReflTransGen.tail ih
          ((mem_parentOf_iff g.edges b c).mpr ⟨e', h', ht, hs⟩)
  · exact reaches_mono hsub

/-- **C4.** `computePathwayCost` counts each ancestor exactly once: adding a
duplicate edge, or an extra edge giving a second path to an
already-reachable ancestor, changes neither `totalCost`, `totalOop` nor
`nodeCount`. -/
theorem computePathwayCost_no_double_count (g : Graph) (e : PEdge)
    (sel : String) (timeHorizon : ℚ)
    (h : e ∈ g.edges ∨ e.source ∈ pathNodeIds g sel) :
    computePathwayCost { g with edges := e :: g.edges } (some sel) timeHorizon =
      computePathwayCost g (some sel) timeHorizon := by
  have h' : e ∈ g.edges ∨ reaches (parentOf g.edges) sel e.source := by
    rcases h with h | h
    · exact Or.inl h
    · exact Or.inr ((mem_pathNodeIds_iff g sel e.source).mp h)
  have hids : pathNodeIds { g with edges := e :: g.edges } sel = pathNodeIds g sel := by
    apply Finset.ext
    intro x
    rw [mem_pathNodeIds_iff, mem_pathNodeIds_iff]
    exact reaches_cons_iff g e sel h' x
  rw [computePathwayCost, computePathwayCost, hids]

def c4Graph : Graph :=
  { nodes :=
      [{ id := "a", label := "A", node_type := "current", year := 0,
         probability := 1, annual_cost := 3, oop_estimate := 1,
         is_llm_generated := false },
       { id := "b", label := "B", node_type := "future", year := 1,
         probability := 1/2, annual_cost := 4, oop_estimate := 2,
         is_llm_generated := false }]
    edges := [{ source := "a", target := "b", edge_type := "comorbidity",
                label := "", probability := 1/2 }]
    total_5yr_cost := 25, total_5yr_oop := 10 }

def c4Edge : PEdge :=
  { source := "a", target := "b", edge_type := "comorbidity", label := "",
    probability := 1/2 }

theorem computePathwayCost_no_double_count_witness :
    (c4Edge ∈ c4Graph.edges ∨ c4Edge.source ∈ pathNodeIds c4Graph "b") ∧
    computePathwayCost { c4Graph with edges := c4Edge :: c4Graph.edges }
        (some "b") 5 =
      computePathwayCost c4Graph (some "b") 5 :=
  ⟨Or.inl (List.mem_singleton.mpr rfl),
    computePathwayCost_no_double_count c4Graph c4Edge "b" 5
      (Or.inl (List.mem_singleton.mpr rfl))⟩

/-! ### C2 : the Dashboard cost breakdown -/

def c2Graph : Graph :=
  { nodes := [{ id := "c", label := "C", node_type := "current", year := 0,
                probability := 1, annual_cost := 1, oop_estimate := 0,
                is_llm_generated := false }]
    edges := []
    total_5yr_cost := 5, total_5yr_oop := 0 }

/-- **C2 counterexample.** The Dashboard's breakdown does not follow the
spec's `years_active = max(1, 5 − onset year + 1)` formula: on a graph with
a single current node of onset year 0 and annual cost 1, the code's
`current` segment is `1 × 5 = 5` while the claimed formula gives
`1 × max(1, 5 − 0 + 1) = 6`. -/
theorem costBreakdown_claim_false :
    ¬ (costBreakdownCurrent c2Graph = specCurrentSegment c2Graph ∧
       costBreakdownFuture c2Graph = specFutureSegment c2Graph) := by
  intro h
  have h1 := h.1
  have hcur : costBreakdownCurrent c2Graph = 5 := by
    norm_num [costBreakdownCurrent, currentNodes, c2Graph]
  have hspec : specCurrentSegment c2Graph = 6 := by
    have hmax : max (1 : ℚ) ((5 : ℚ) - 0 + 1) = 6 := by
      rw [max_eq_right] <;> norm_num
    norm_num [specCurrentSegment, currentNodes, c2Graph, hmax]
  rw [hcur, hspec] at h1
  norm_num at h1

/-- **C2 (amended).** The Dashboard's cost breakdown multiplies by the flat
5-year horizon with no per-node onset adjustment: its `current` segment is
`5 ×` the sum of `annual_cost` over current-type nodes, and its `future`
segment is `5 ×` the sum of `annual_cost × probability` over future-type
and high_cost-type nodes. -/
theorem costBreakdown_flat_horizon (g : Graph) :
    costBreakdownCurrent g =
      5 * ((currentNodes g).map (fun n => n.annual_cost)).sum ∧
    costBreakdownFuture g =
      5 * ((futureNodes g ++ highCostNodes g).map
        (fun n => n.annual_cost * n.probability)).sum := by
  constructor
  · rw [costBreakdownCurrent, foldl_add_eq_sum]
    ring
  · rw [costBreakdownFuture, foldl_add_eq_sum]
    have hperm : (riskNodes g).Perm (futureNodes g ++ highCostNodes g) :=
      List.mergeSort_perm _ _
    rw [(hperm.map (fun n => n.annual_cost * n.probability)).sum_eq]
    ring

/-! ### C5 : the Financial Calculator -/

/-- A degenerate plan whose `oop_max` is negative. -/
def c5BadPlan : Plan :=
  { plan_id := "bad", plan_name := "Bad", issuer := "X", metal_level := "Bronze"
    deductible := 0, coinsurance := 0, oop_max := -1, monthly_premium := 0 }

/-- **C5 counterexample.** As stated for *every* plan the claim fails: a plan
with a negative `oop_max` (the data model puts no sign constraint on plan
terms) caps `outOfPocket(0, plan)` at `oop_max = −1 ≠ 0`. -/
theorem outOfPocket_zero_claim_false : outOfPocket 0 c5BadPlan ≠ 0 := by
  norm_num [outOfPocket, c5BadPlan]

/-- **C5 (amended).** For every plan with nonnegative terms and
`deductible ≤ oop_max`, `outOfPocket` equals the claimed min/deductible/
coinsurance formula (definitionally), returns 0 at 0, returns `annualCost`
unchanged below the deductible, never exceeds `oop_max`, and is monotone
non-decreasing in `annualCost`. -/
theorem outOfPocket_properties (plan : Plan)
    (hd : 0 ≤ plan.deductible) (hdo : plan.deductible ≤ plan.oop_max)
    (hc : 0 ≤ plan.coinsurance) :
    (∀ c : ℚ, 0 ≤ c → outOfPocket c plan =
      min plan.oop_max
        (if c ≤ plan.deductible then c
         else plan.deductible + plan.coinsurance * (c - plan.deductible))) ∧
    outOfPocket 0 plan = 0 ∧
    (∀ c : ℚ, 0 ≤ c → c ≤ plan.deductible → outOfPocket c plan = c) ∧
    (∀ c : ℚ, 0 ≤ c → outOfPocket c plan ≤ plan.oop_max) ∧
    (∀ c₁ c₂ : ℚ, 0 ≤ c₁ → c₁ ≤ c₂ →
      outOfPocket c₁ plan ≤ outOfPocket c₂ plan) := by
  have hbelow : ∀ c : ℚ, c ≤ plan.deductible → outOfPocket c plan = min plan.oop_max c := by
    intro c hcle
    rw [outOfPocket, if_pos hcle]
  refine ⟨fun c _ => rfl, ?_, ?_, ?_, ?_⟩
  · rw [hbelow 0 hd]
    exact min_eq_right (le_trans hd hdo)
  · intro c _ hcle
    rw [hbelow c hcle]
    exact min_eq_right (le_trans hcle hdo)
  · intro c _
    exact min_le_left _ _
  · intro c₁ c₂ _ h12
    rw [outOfPocket, outOfPocket]
    refine min_le_min (le_refl _) ?_
    by_cases h1 : c₁ ≤ plan.deductible
    · rw [if_pos h1]
      by_cases h2 : c₂ ≤ plan.deductible
      · rw [if_pos h2]
        exact h12
      · rw [if_neg h2]
        push_neg at h2
        nlinarith
    · rw [if_neg h1]
      push_neg at h1
      have h2 : ¬ c₂ ≤ plan.deductible := by linarith
      rw [if_neg h2]
      nlinarith

/-- The fixed plan terms of the application's default profile satisfy the
amended hypotheses. -/
def c5Plan : Plan :=
  { plan_id := "p1", plan_name := "P1", issuer := "X", metal_level := "Silver"
    deductible := 2000, coinsurance := 1/5, oop_max := 8000
    monthly_premium := 400 }

theorem outOfPocket_properties_witness :
    ((0 : ℚ) ≤ c5Plan.deductible ∧ c5Plan.deductible ≤ c5Plan.oop_max ∧
      (0 : ℚ) ≤ c5Plan.coinsurance) ∧
    outOfPocket 0 c5Plan = 0 :=
  ⟨⟨by norm_num [c5Plan], by norm_num [c5Plan], by norm_num [c5Plan]⟩,
    (outOfPocket_properties c5Plan (by norm_num [c5Plan]) (by norm_num [c5Plan])
      (by norm_num [c5Plan])).2.1⟩

/-! ### C6 : plan ordering and the highlighted cheapest plan -/

/-- The Prop reading of the Plan Comparator's sort key. -/
theorem planKeyLE_iff (a b : PlanComparison) :
    planKeyLE a b = true ↔
      a.total_with_premium < b.total_with_premium ∨
        (a.total_with_premium = b.total_with_premium ∧
          a.plan.plan_id ≤ b.plan.plan_id) := by
  simp [planKeyLE]

theorem planKeyLE_trans (a b c : PlanComparison)
    (hab : planKeyLE a b = true) (hbc : planKeyLE b c = true) :
    planKeyLE a c = true := by
  rw [planKeyLE_iff] at *
  rcases hab with h1 | ⟨h1, h1'⟩ <;> rcases hbc with h2 | ⟨h2, h2'⟩
  · exact Or.inl (lt_trans h1 h2)
  · exact Or.inl (h2 ▸ h1)
  · exact Or.inl (h1 ▸ h2)
  · exact Or.inr ⟨h1.trans h2, le_trans h1' h2'⟩

theorem planKeyLE_total (a b : PlanComparison) :
    (planKeyLE a b || planKeyLE b a) = true := by
  rw [Bool.or_eq_true, planKeyLE_iff, planKeyLE_iff]
  rcases lt_trichotomy a.total_with_premium b.total_with_premium with h | h | h
  · exact Or.inl (Or.inl h)
  · rcases le_total a.plan.plan_id b.plan.plan_id with h' | h'
    · exact Or.inl (Or.inr ⟨h, h'⟩)
    · exact Or.inr (Or.inr ⟨h.symm, h'⟩)
  · exact Or.inr (Or.inl h)

theorem cheapest_foldl_aux (rs : List PlanComparison)
    (l : List (ℕ × PlanComparison)) (b : ℕ)
    (hl : ∀ ix ∈ l, twpAt rs ix.1 = ix.2.total_with_premium) :
    (l.foldl (cheapestStep rs) b = b ∨
      ∃ ix ∈ l, ix.1 = l.foldl (cheapestStep rs) b) ∧
    twpAt rs (l.foldl (cheapestStep rs) b) ≤ twpAt rs b ∧
    ∀ ix ∈ l, twpAt rs (l.foldl (cheapestStep rs) b) ≤ ix.2.total_with_premium := by
  induction l generalizing b with
  | nil => exact ⟨Or.inl rfl, le_refl _, fun ix h => absurd h (List.not_mem_nil ix)⟩
  | cons ix l ih =>
    rw [List.foldl_cons]
    have hl' : ∀ jx ∈ l, twpAt rs jx.1 = jx.2.total_with_premium :=
      fun jx hjx => hl jx (List.mem_cons_of_mem ix hjx)
    obtain ⟨hmem, hle, hall⟩ := ih (cheapestStep rs b ix) hl'
    have hstep : twpAt rs (cheapestStep rs b ix) ≤ twpAt rs b ∧
        twpAt rs (cheapestStep rs b ix) ≤ ix.2.total_with_premium ∧
        (cheapestStep rs b ix = b ∨ cheapestStep rs b ix = ix.1) := by
      unfold cheapestStep
      by_cases hlt : ix.2.total_with_premium < twpAt rs b
      · rw [if_pos hlt]
        have := hl ix (List.mem_cons_self ix l)
        exact ⟨this ▸ le_of_lt hlt, le_of_eq this, Or.inr rfl⟩
      · rw [if_neg hlt]
        exact ⟨le_refl _, le_of_not_lt hlt, Or.inl rfl⟩
    refine ⟨?_, le_trans hle hstep.1, ?_⟩
    · rcases hmem with h | ⟨jx, hjx, hjx'⟩
      · rcases hstep.2.2 with h' | h'
        · exact Or.inl (h.trans h')
        · exact Or.inr ⟨ix, List.mem_cons_self ix l, h' ▸ h.symm⟩
      · exact Or.inr ⟨jx, List.mem_cons_of_mem ix hjx, hjx'⟩
    · intro jx hjx
      rcases List.mem_cons.mp hjx with h | h
      · rw [h]
        exact le_trans hle hstep.2.1
      · exact hall jx h

theorem cheapest_foldl_stay (rs : List PlanComparison)
    (l : List (ℕ × PlanComparison)) (b : ℕ)
    (h : ∀ ix ∈ l, ¬ (ix.2.total_with_premium < twpAt rs b)) :
    l.foldl (cheapestStep rs) b = b := by
  induction l with
  | nil => rfl
  | cons ix l ih =>
    rw [List.foldl_cons]
    have hstep : cheapestStep rs b ix = b := by
      unfold cheapestStep
      rw [if_neg (h ix (List.mem_cons_self ix l))]
    rw [hstep]
    exact ih fun jx hjx => h jx (List.mem_cons_of_mem ix hjx)

theorem mem_enum_self (rs : List PlanComparison) (i : ℕ) (h : i < rs.length) :
    (i, rs[i]) ∈ rs.enum := by
  rw [List.mem_iff_get?]
  simp [List.getElem?_enum, List.getElem?_eq_getElem h]

theorem twpAt_lt_length (rs : List PlanComparison) (i : ℕ) (h : i < rs.length) :
    twpAt rs i = rs[i].total_with_premium := by
  rw [twpAt]
  simp [List.getElem?_eq_getElem h]

/-- **C6.** The Plan Comparator's results come back sorted ascending by
`total_with_premium` with ties broken by plan id (a permutation of the
evaluated plans); for every non-empty results list the index highlighted as
"Best Value" is in range and its `total_with_premium` is no larger than any
other entry's; and on a tie-sorted list the highlighted entry is
deterministically the first one. -/
theorem comparePlans_ordering (rs : List PlanComparison) (hne : rs ≠ []) :
    List.Sorted (fun a b => planKeyLE a b = true) (sortResults rs) ∧
    (sortResults rs).Perm rs ∧
    cheapestIdx rs < rs.length ∧
    (∀ i, i < rs.length → twpAt rs (cheapestIdx rs) ≤ twpAt rs i) ∧
    (List.Sorted (fun a b => planKeyLE a b = true) rs → cheapestIdx rs = 0) := by
  have hl : ∀ ix ∈ rs.enum, twpAt rs ix.1 = ix.2.total_with_premium := by
    intro ix hix
    obtain ⟨h1, h2⟩ := List.mem_enum hix
    rw [twpAt_lt_length rs ix.1 h1, h2]
  obtain ⟨hmem, _, hall⟩ := cheapest_foldl_aux rs rs.enum 0 hl
  refine ⟨?_, List.mergeSort_perm rs planKeyLE, ?_, ?_, ?_⟩
  · exact List.sorted_mergeSort planKeyLE_trans planKeyLE_total rs
  · rcases hmem with h | ⟨ix, hix, hix'⟩
    · rw [cheapestIdx, h]
      exact List.length_pos.mpr hne
    · rw [cheapestIdx, ← hix']
      exact (List.mem_enum hix).1
  · intro i hi
    have := hall (i, rs[i]) (mem_enum_self rs i hi)
    rw [cheapestIdx]
    rw [twpAt_lt_length rs i hi]
    exact this
  · intro hsorted
    rw [cheapestIdx]
    refine cheapest_foldl_stay rs rs.enum 0 ?_
    intro ix hix
    obtain ⟨h1, h2⟩ := List.mem_enum hix
    obtain ⟨r0, tl, rfl⟩ : ∃ r0 tl, rs = r0 :: tl := by
      cases rs with
      | nil => exact absurd rfl hne
      | cons r0 tl => exact ⟨r0, tl, rfl⟩
    have h0 : twpAt (r0 :: tl) 0 = r0.total_with_premium := rfl
    rw [h0]
    have hmem2 : ix.2 ∈ r0 :: tl := h2 ▸ List.getElem_mem h1
    rcases List.mem_cons.mp hmem2 with h' | h'
    · rw [h']
      exact lt_irrefl _
    · have := (List.sorted_cons.mp hsorted).1 ix.2 h'
      rw [planKeyLE_iff] at this
      rcases this with h'' | ⟨h'', _⟩
      · exact not_lt_of_lt h''
      · exact h'' ▸ lt_irrefl _

def c6Results : List PlanComparison :=
  [{ plan := { plan_id := "pA", plan_name := "A", issuer := "X",
               metal_level := "Silver", deductible := 1000, coinsurance := 1/5,
               oop_max := 6000, monthly_premium := 300 }
     graph := { nodes := [], edges := [], total_5yr_cost := 0, total_5yr_oop := 0 }
     total_with_premium := 18000 },
   { plan := { plan_id := "pB", plan_name := "B", issuer := "Y",
               metal_level := "Gold", deductible := 500, coinsurance := 1/10,
               oop_max := 4000, monthly_premium := 450 }
     graph := { nodes := [], edges := [], total_5yr_cost := 0, total_5yr_oop := 0 }
     total_with_premium := 27000 }]

theorem comparePlans_ordering_witness :
    c6Results ≠ [] ∧
    cheapestIdx c6Results < c6Results.length ∧
    twpAt c6Results (cheapestIdx c6Results) ≤ twpAt c6Results 1 :=
  ⟨List.cons_ne_nil _ _,
    (comparePlans_ordering c6Results (List.cons_ne_nil _ _)).2.2.1,
    (comparePlans_ordering c6Results (List.cons_ne_nil _ _)).2.2.2.1 1 (by decide)⟩

/-! ### C7 : the 5-year premium arithmetic -/

/-- **C7.** Each compared plan's premium component is
`monthly_premium × 12 × 5` (rendered as `monthly_premium × 60`), the
displayed total equals `total_5yr_oop` plus that premium component, and the
comparison request posted by `handleCompare` always carries
`time_horizon_years = 5`. -/
theorem comparePlans_premium_arithmetic (p : Plan) (g : Graph)
    (profile : Option Profile) (searchAge : ℚ) (st : String)
    (sel : List String) (req : MarketplaceCompareRequest)
    (hreq : handleCompareRequest profile searchAge st sel = some req) :
    premiumsShown (mkPlanComparison p g 5) = p.monthly_premium * 12 * 5 ∧
    totalShown (mkPlanComparison p g 5) =
      g.total_5yr_oop + premiumsShown (mkPlanComparison p g 5) ∧
    req.time_horizon_years = 5 := by
  refine ⟨?_, ?_, ?_⟩
  · show p.monthly_premium * 60 = p.monthly_premium * 12 * 5
    ring
  · show g.total_5yr_oop + p.monthly_premium * 12 * 5 =
      g.total_5yr_oop + p.monthly_premium * 60
    ring
  · rw [handleCompareRequest.eq_def] at hreq
    by_cases hlen : sel.length < 2
    · rw [if_pos hlen] at hreq
      cases hreq
    · rw [if_neg hlen] at hreq
      injection hreq with hreq
      rw [← hreq]

def c7Plan : Plan :=
  { plan_id := "q", plan_name := "Q", issuer := "Z", metal_level := "Bronze"
    deductible := 3000, coinsurance := 3/10, oop_max := 9000
    monthly_premium := 250 }

def c7Graph : Graph :=
  { nodes := [], edges := [], total_5yr_cost := 40000, total_5yr_oop := 9000 }

theorem comparePlans_premium_arithmetic_witness :
    handleCompareRequest none 45 "WI" ["p1", "p2"] =
      some { age := 45, sex := "M", conditions := [], interventions := []
             state := "WI", plan_ids := ["p1", "p2"], time_horizon_years := 5 } ∧
    premiumsShown (mkPlanComparison c7Plan c7Graph 5) =
      c7Plan.monthly_premium * 12 * 5 :=
  ⟨rfl,
    (comparePlans_premium_arithmetic c7Plan c7Graph none 45 "WI" ["p1", "p2"]
      { age := 45, sex := "M", conditions := [], interventions := []
        state := "WI", plan_ids := ["p1", "p2"], time_horizon_years := 5 }
      rfl).1⟩

/-! ### C8 : the rendered graph is rooted at current/suspected nodes -/

/-- **C8.** `toElements` emits exactly one root-typed node (the synthetic
root), and emits an edge with source `"root"` to a target exactly when some
graph node carries that id and is of type `current` or has an id starting
with `suspected_` — and to no other node.  The hypotheses record that the
backend's own node types and edge sources never use the reserved `root`
name. -/
theorem toElements_rooted (g : Graph)
    (hn : ∀ n ∈ g.nodes, n.node_type ≠ "root")
    (he : ∀ e ∈ g.edges, e.source ≠ "root") :
    ((toElements g).1.filter (fun d => d.nodeType = "root")).length = 1 ∧
    (∀ t : String,
      (∃ d ∈ (toElements g).2, d.source = "root" ∧ d.target = t ∧
        d.edgeType = "root") ↔
      (∃ n ∈ g.nodes, n.id = t ∧
        (n.node_type = "current" ∨ n.id.startsWith "suspected_" = true))) := by
  constructor
  · show ((rootNodeData :: g.nodes.map cyNodeData).filter
      (fun d => d.nodeType = "root")).length = 1
    rw [List.filter_cons]
    have hroot : (rootNodeData.nodeType = "root") = True := by
      simp [rootNodeData]
    have hnil : (g.nodes.map cyNodeData).filter (fun d => d.nodeType = "root") = [] := by
      rw [List.filter_eq_nil_iff]
      intro d hd
      rcases List.mem_map.mp hd with ⟨n, hn', rfl⟩
      simpa [cyNodeData] using hn n hn'
    simp [hroot, hnil]
  · intro t
    constructor
    · rintro ⟨d, hd, hsrc, htgt, hty⟩
      rcases List.mem_append.mp hd with h | h
      · rcases List.mem_filterMap.mp h with ⟨n, hn', hsome⟩
        rw [rootEdgeFor] at hsome
        by_cases hcond : n.node_type = "current" ∨ n.id.startsWith "suspected_" = true
        · rw [if_pos hcond] at hsome
          injection hsome with hsome
          refine ⟨n, hn', ?_, hcond⟩
          rw [← htgt, ← hsome]
        · rw [if_neg hcond] at hsome
          cases hsome
      · exfalso
        rcases List.mem_map.mp h with ⟨ie, hie, rfl⟩
        obtain ⟨i, e⟩ := ie
        obtain ⟨hlt, heq⟩ := List.mem_enum hie
        have hmem : e ∈ g.edges := heq ▸ List.getElem_mem hlt
        exact he e hmem (by simpa using hsrc)
    · rintro ⟨n, hn', hid, hcond⟩
      refine ⟨{ id := "root-to-" ++ n.id, source := "root", target := n.id
                label := "", edgeType := "root", probability := n.probability },
        ?_, rfl, hid, rfl⟩
      refine List.mem_append_left _ ?_
      refine List.mem_filterMap.mpr ⟨n, hn', ?_⟩
      rw [rootEdgeFor, if_pos hcond]

def c8Graph : Graph :=
  { nodes :=
      [{ id := "dm", label := "Diabetes", node_type := "current", year := 0,
         probability := 1, annual_cost := 9000, oop_estimate := 2500,
         is_llm_generated := false },
       { id := "ckd", label := "Kidney Disease", node_type := "future", year := 2,
         probability := 3/10, annual_cost := 20000, oop_estimate := 8000,
         is_llm_generated := false },
       { id := "suspected_htn", label := "Hypertension?", node_type := "future",
         year := 0, probability := 6/10, annual_cost := 1200, oop_estimate := 400,
         is_llm_generated := true }]
    edges := [{ source := "dm", target := "ckd", edge_type := "comorbidity",
                label := "", probability := 3/10 }]
    total_5yr_cost := 80000, total_5yr_oop := 25000 }

theorem toElements_rooted_witness :
    ((toElements c8Graph).1.filter (fun d => d.nodeType = "root")).length = 1 :=
  (toElements_rooted c8Graph (by decide) (by decide)).1

/-! ### C9 : the fixed default profile and horizon -/

/-- **C9.** Every profile `startNewProfile` submits carries the fixed plan
terms `deductible = 2000`, `coinsurance = 0.2`, `oop_max = 8000`; `age`
defaults to 45, `sex` to `"M"` and `insurance_type` to `"PPO"` when omitted
from the parsed input; and both pathway-building requests (initial build and
intervention update) use the fixed 5-year horizon. -/
theorem startNewProfile_fixed_terms (parsed : ParsedProfile) :
    (mkNewProfile parsed).deductible = 2000 ∧
    (mkNewProfile parsed).coinsurance = 0.2 ∧
    (mkNewProfile parsed).oop_max = 8000 ∧
    (parsed.age = none → (mkNewProfile parsed).age = 45) ∧
    (parsed.sex = none → (mkNewProfile parsed).sex = "M") ∧
    (parsed.insurance_type = none → (mkNewProfile parsed).insurance_type = "PPO") ∧
    (startNewProfileRequest parsed).time_horizon_years = 5 ∧
    (∀ (profile : Profile) (ivs : List String),
      (interventionPathwayRequest profile ivs).time_horizon_years = 5) := by
  refine ⟨rfl, rfl, rfl, ?_, ?_, ?_, rfl, fun _ _ => rfl⟩
  · intro h
    show orNum parsed.age 45 = 45
    rw [h, orNum]
  · intro h
    show orStr parsed.sex "M" = "M"
    rw [h, orStr]
  · intro h
    show orStr parsed.insurance_type "PPO" = "PPO"
    rw [h, orStr]

def c9Parsed : ParsedProfile :=
  { age := none, sex := none, conditions := some ["diabetes"]
    insurance_type := none, symptom_conditions := none
    unmapped_conditions := none }

theorem startNewProfile_fixed_terms_witness :
    (mkNewProfile c9Parsed).deductible = 2000 ∧
    (mkNewProfile c9Parsed).coinsurance = 0.2 ∧
    (mkNewProfile c9Parsed).oop_max = 8000 ∧
    (mkNewProfile c9Parsed).age = 45 ∧
    (mkNewProfile c9Parsed).sex = "M" ∧
    (mkNewProfile c9Parsed).insurance_type = "PPO" ∧
    (startNewProfileRequest c9Parsed).time_horizon_years = 5 ∧
    (interventionPathwayRequest (mkNewProfile c9Parsed) ["statin"]).time_horizon_years = 5 :=
  ⟨(startNewProfile_fixed_terms c9Parsed).1,
    (startNewProfile_fixed_terms c9Parsed).2.1,
    (startNewProfile_fixed_terms c9Parsed).2.2.1,
    (startNewProfile_fixed_terms c9Parsed).2.2.2.1 rfl,
    (startNewProfile_fixed_terms c9Parsed).2.2.2.2.1 rfl,
    (startNewProfile_fixed_terms c9Parsed).2.2.2.2.2.1 rfl,
    (startNewProfile_fixed_terms c9Parsed).2.2.2.2.2.2.1,
    (startNewProfile_fixed_terms c9Parsed).2.2.2.2.2.2.2 _ _⟩

/-! ### C10 : plan selection invariants -/

theorem togglePlan_preserves (planId : String) (s : List String)
    (hnd : s.Nodup) (hlen : s.length ≤ 3) :
    (togglePlan planId s).Nodup ∧ (togglePlan planId s).length ≤ 3 := by
  rw [togglePlan]
  by_cases hmem : planId ∈ s
  · rw [if_pos hmem]
    exact ⟨hnd.filter _, le_trans (List.length_filter_le _ _) hlen⟩
  · rw [if_neg hmem]
    by_cases hfull : 3 ≤ s.length
    · rw [if_pos hfull]
      exact ⟨hnd, hlen⟩
    · rw [if_neg hfull]
      constructor
      · rw [List.nodup_append]
        exact ⟨hnd, List.nodup_singleton planId,
          fun a ha hb => hmem ((List.mem_singleton.mp hb) ▸ ha)⟩
      · rw [List.length_append, List.length_singleton]
        omega

theorem applyToggles_aux (clicks : List String) (s : List String)
    (hnd : s.Nodup) (hlen : s.length ≤ 3) :
    (clicks.foldl (fun sel planId => togglePlan planId sel) s).Nodup ∧
    (clicks.foldl (fun sel planId => togglePlan planId sel) s).length ≤ 3 := by
  induction clicks generalizing s with
  | nil => exact ⟨hnd, hlen⟩
  | cons c clicks ih =>
    rw [List.foldl_cons]
    obtain ⟨h1, h2⟩ := togglePlan_preserves c s hnd hlen
    exact ih _ h1 h2

/-- **C10.** Starting from the empty selection, any sequence of `togglePlan`
clicks leaves a duplicate-free selection of at most 3 plan ids; toggling an
already-selected id removes exactly it; and `handleCompare` fires exactly
when at least 2 plans are selected. -/
theorem togglePlan_invariants (clicks : List String) :
    (applyToggles clicks).Nodup ∧
    (applyToggles clicks).length ≤ 3 ∧
    (∀ (p : String) (s : List String), p ∈ s →
      p ∉ togglePlan p s ∧ ∀ q ∈ s, q ≠ p → q ∈ togglePlan p s) ∧
    (∀ (profile : Option Profile) (searchAge : ℚ) (st : String)
      (s : List String),
      (handleCompareRequest profile searchAge st s).isSome = true ↔
        2 ≤ s.length) := by
  obtain ⟨h1, h2⟩ := applyToggles_aux clicks [] List.nodup_nil (by simp)
  refine ⟨h1, h2, ?_, ?_⟩
  · intro p s hp
    rw [togglePlan, if_pos hp]
    constructor
    · intro hmem
      rcases List.mem_filter.mp hmem with ⟨_, hq⟩
      simp at hq
    · intro q hq hqp
      exact List.mem_filter.mpr ⟨hq, by simpa using hqp⟩
  · intro profile searchAge st s
    rw [handleCompareRequest.eq_def]
    by_cases hlen : s.length < 2
    · rw [if_pos hlen]
      simp
      omega
    · rw [if_neg hlen]
      simp
      omega

theorem togglePlan_invariants_witness :
    (applyToggles ["p1", "p2", "p1"]).Nodup ∧
    (applyToggles ["p1", "p2", "p1"]).length ≤ 3 ∧
    "p2" ∉ togglePlan "p2" ["p1", "p2"] ∧
    "p1" ∈ togglePlan "p2" ["p1", "p2"] ∧
    (handleCompareRequest none 45 "WI" ["p1", "p2"]).isSome = true :=
  ⟨(togglePlan_invariants ["p1", "p2", "p1"]).1,
    (togglePlan_invariants ["p1", "p2", "p1"]).2.1,
    ((togglePlan_invariants ["p1", "p2", "p1"]).2.2.1 "p2" ["p1", "p2"]
      (by simp)).1,
    ((togglePlan_invariants ["p1", "p2", "p1"]).2.2.1 "p2" ["p1", "p2"]
      (by simp)).2 "p1" (by simp) (by simp),
    ((togglePlan_invariants ["p1", "p2", "p1"]).2.2.2 none 45 "WI"
      ["p1", "p2"]).mpr (by simp)⟩

end CareGraph
